import Mathlib

/-!
Verification development for the reStream streaming pipeline.

Shallow embedding of the core components from the Rust sources:
- src/xor.rs: XorStream (delta-XOR encoder) and UnxorStream (decoder)
- src/main.rs: FrameCapper (frame-rate throttle), ReStreamer (cyclic
  frame source) and MonowTranscoder (1-bit-per-pixel repacking).

Bytes are modelled as Nat values (the Rust code only xors and compares
bytes, and xor of values below 256 stays below 256, so no wraparound
arithmetic occurs). Streams are lists of bytes; one call to a Rust
`read` is modelled as a function from the state and the byte chunk that
the wrapped source returned to the new state and the produced bytes.
-/

/-! ## Delta-XOR codec (src/xor.rs) -/

/-- Encoder state: `last_cache` is the ring of `block_size` bytes holding
the previous plaintext at each block position, `last_cache_index` the
ring cursor. Mirrors `struct XorStream` (src/xor.rs lines 9-13) minus the
wrapped reader, which is modelled by passing the returned chunk. -/
structure XorStream where
  last_cache : List Nat
  last_cache_index : Nat
deriving DecidableEq, Repr

/-- `XorStream::new(block_size, inner)`: all-zero ring, cursor 0. -/
def XorStream.new (block_size : Nat) : XorStream :=
  ⟨List.replicate block_size 0, 0⟩

/-- One call to `XorStream::read` (src/xor.rs lines 26-37): `chunk` is the
byte sequence the inner source returned. For each byte, take the previous
ring value, overwrite the ring slot with the new plaintext byte, output
plaintext xor previous, advance the cursor modulo the ring length. -/
def XorStream.read : XorStream → List Nat → XorStream × List Nat
  | s, [] => (s, [])
  | s, b :: rest =>
    let prev := s.last_cache.getD s.last_cache_index 0
    let s1 : XorStream :=
      ⟨s.last_cache.set s.last_cache_index b,
       (s.last_cache_index + 1) % s.last_cache.length⟩
    let r := XorStream.read s1 rest
    (r.1, (b ^^^ prev) :: r.2)

/-- Decoder state: `diff_cache` is the deque of the `block_size` most
recently produced plaintext bytes (front = oldest). Mirrors
`struct UnxorStream` (src/xor.rs lines 44-47). -/
structure UnxorStream where
  diff_cache : List Nat
deriving DecidableEq, Repr

/-- `UnxorStream::new(block_size, inner)`: deque of `block_size` zeros. -/
def UnxorStream.new (block_size : Nat) : UnxorStream :=
  ⟨List.replicate block_size 0⟩

/-- One call to `UnxorStream::read` (src/xor.rs lines 60-67): for each
diff byte, pop the oldest ring value, xor it with the diff byte to get
the plaintext, push the plaintext on the back of the deque and output it.
The Rust `pop_front().unwrap()` panics on an empty deque; the claims all
assume `block_size >= 1`, where the deque is never empty. -/
def UnxorStream.read : UnxorStream → List Nat → UnxorStream × List Nat
  | s, [] => (s, [])
  | s, b :: rest =>
    let plain := s.diff_cache.headD 0 ^^^ b
    let s1 : UnxorStream := ⟨s.diff_cache.tail ++ [plain]⟩
    let r := UnxorStream.read s1 rest
    (r.1, plain :: r.2)

/-- Feeding the encoder a sequence of read calls (one chunk per call). -/
def XorStream.run : XorStream → List (List Nat) → XorStream × List (List Nat)
  | s, [] => (s, [])
  | s, c :: cs =>
    let r := XorStream.read s c
    let rs := XorStream.run r.1 cs
    (rs.1, r.2 :: rs.2)

/-- Feeding the decoder a sequence of read calls (one chunk per call). -/
def UnxorStream.run : UnxorStream → List (List Nat) → UnxorStream × List (List Nat)
  | s, [] => (s, [])
  | s, c :: cs =>
    let r := UnxorStream.read s c
    let rs := UnxorStream.run r.1 cs
    (rs.1, r.2 :: rs.2)

/-- The decoder deque corresponding to encoder ring `c` with cursor `i`:
the ring contents rotated so that the byte about to be overwritten
(the oldest plaintext) is in front. -/
def rotAt (c : List Nat) (i : Nat) : List Nat := c.drop i ++ c.take i

/-! ### List helper lemmas -/

theorem list_set_drop_succ : ∀ (l : List Nat) (i b : Nat), (l.set i b).drop (i + 1) = l.drop (i + 1)
  | [], _, _ => rfl
  | _ :: _, 0, _ => rfl
  | _ :: tl, i + 1, b => by
    simpa using list_set_drop_succ tl i b

theorem list_set_take_succ : ∀ (l : List Nat) (i b : Nat), i < l.length →
    (l.set i b).take (i + 1) = l.take i ++ [b]
  | [], i, _, h => by simp at h
  | _ :: _, 0, _, _ => rfl
  | hd :: tl, i + 1, b, h => by
    have h' : i < tl.length := by simpa using h
    simp [List.set, List.take, list_set_take_succ tl i b h']

theorem list_set_last : ∀ (l : List Nat) (i b : Nat), i + 1 = l.length →
    l.set i b = l.take i ++ [b]
  | [], i, _, h => by simp at h
  | hd :: tl, 0, b, h => by
    have : tl = [] := by
      have : tl.length = 0 := by simpa using h.symm
      exact List.length_eq_zero.mp this
    simp [this]
  | hd :: tl, i + 1, b, h => by
    have h' : i + 1 = tl.length := by simpa using h
    simp [List.set, List.take, list_set_last tl i b h']

theorem list_drop_getD : ∀ (l : List Nat) (i : Nat), i < l.length →
    l.drop i = l.getD i 0 :: l.drop (i + 1)
  | [], i, h => by simp at h
  | hd :: tl, 0, _ => rfl
  | hd :: tl, i + 1, h => by
    have h' : i < tl.length := by simpa using h
    simpa using list_drop_getD tl i h'

theorem list_set_append_left : ∀ (l m : List Nat) (i v : Nat), i < l.length →
    (l ++ m).set i v = l.set i v ++ m
  | [], _, i, _, h => by simp at h
  | hd :: tl, m, 0, v, _ => rfl
  | hd :: tl, m, i + 1, v, h => by
    have h' : i < tl.length := by simpa using h
    simp [List.set, list_set_append_left tl m i v h']

theorem list_getD_append_left : ∀ (l m : List Nat) (i : Nat), i < l.length →
    (l ++ m).getD i 0 = l.getD i 0
  | [], _, i, h => by simp at h
  | hd :: tl, m, 0, _ => rfl
  | hd :: tl, m, i + 1, h => by
    have h' : i < tl.length := by simpa using h
    simpa using list_getD_append_left tl m i h'

theorem list_set_append_len : ∀ (l m : List Nat) (v : Nat),
    (l ++ m).set l.length v = l ++ m.set 0 v
  | [], _, _ => rfl
  | hd :: tl, m, v => by
    simp [List.set, list_set_append_len tl m v]

theorem list_getD_append_len : ∀ (l m : List Nat),
    (l ++ m).getD l.length 0 = m.getD 0 0
  | [], _ => rfl
  | hd :: tl, m => by
    simpa using list_getD_append_len tl m

theorem list_take_getD_drop : ∀ (l : List Nat) (p : Nat), p < l.length →
    l.take p ++ l.getD p 0 :: l.drop (p + 1) = l
  | [], p, h => by simp at h
  | hd :: tl, 0, _ => rfl
  | hd :: tl, p + 1, h => by
    have h' : p < tl.length := by simpa using h
    simp only [List.take_succ_cons, List.getD_cons_succ, List.drop_succ_cons, List.cons_append]
    exact congrArg (hd :: ·) (list_take_getD_drop tl p h')

theorem nat_xor_cancel (a b : Nat) : a ^^^ (b ^^^ a) = b := by
  rw [Nat.xor_comm b a, ← Nat.xor_assoc, Nat.xor_self, Nat.zero_xor]

/-! ### Round-trip invariant -/

/-- Core invariant: if the decoder deque is the encoder ring rotated to
the cursor, then decoding the encoder output reproduces the input and
the deques stay in rotation correspondence. -/
theorem roundtrip_aux : ∀ (bs cache : List Nat) (idx : Nat), idx < cache.length →
    (XorStream.read ⟨cache, idx⟩ bs).1.last_cache.length = cache.length
    ∧ (XorStream.read ⟨cache, idx⟩ bs).1.last_cache_index < cache.length
    ∧ UnxorStream.read ⟨rotAt cache idx⟩ (XorStream.read ⟨cache, idx⟩ bs).2
      = (⟨rotAt (XorStream.read ⟨cache, idx⟩ bs).1.last_cache
               (XorStream.read ⟨cache, idx⟩ bs).1.last_cache_index⟩, bs)
  | [], cache, idx, h => by
    refine ⟨rfl, h, ?_⟩
    simp [XorStream.read, UnxorStream.read]
  | b :: rest, cache, idx, h => by
    have hlen : (cache.set idx b).length = cache.length := by simp
    have hpos : 0 < cache.length := Nat.lt_of_le_of_lt (Nat.zero_le idx) h
    have hidx' : (idx + 1) % cache.length < cache.length := Nat.mod_lt _ hpos
    obtain ⟨ih_len, ih_idx, ih_eq⟩ :=
      roundtrip_aux rest (cache.set idx b) ((idx + 1) % cache.length) (by rw [hlen]; exact hidx')
    have hread : XorStream.read ⟨cache, idx⟩ (b :: rest)
        = ((XorStream.read ⟨cache.set idx b, (idx + 1) % cache.length⟩ rest).1,
           (b ^^^ cache.getD idx 0) ::
             (XorStream.read ⟨cache.set idx b, (idx + 1) % cache.length⟩ rest).2) := by
      simp only [XorStream.read]
    rw [hread]
    refine ⟨ih_len.trans hlen, lt_of_lt_of_eq ih_idx hlen, ?_⟩
    -- unfold one decoder step
    have hrot : rotAt cache idx = cache.getD idx 0 :: (cache.drop (idx + 1) ++ cache.take idx) := by
      rw [rotAt, list_drop_getD cache idx h]
      rfl
    have hplain : cache.getD idx 0 ^^^ (b ^^^ cache.getD idx 0) = b := nat_xor_cancel _ _
    have hdeque :
        (cache.drop (idx + 1) ++ cache.take idx) ++ [b]
          = rotAt (cache.set idx b) ((idx + 1) % cache.length) := by
      rcases Nat.lt_or_ge (idx + 1) cache.length with hlt | hge
      · rw [Nat.mod_eq_of_lt hlt]
        simp only [rotAt]
        rw [list_set_drop_succ, list_set_take_succ cache idx b h, List.append_assoc]
      · have heq : idx + 1 = cache.length := Nat.le_antisymm h hge
        rw [heq, Nat.mod_self]
        simp only [rotAt, List.drop_length, List.nil_append, List.drop_zero,
          List.take_zero, List.append_nil]
        rw [list_set_last cache idx b heq]
    have hstep : UnxorStream.read ⟨rotAt cache idx⟩
        ((b ^^^ cache.getD idx 0) ::
          (XorStream.read ⟨cache.set idx b, (idx + 1) % cache.length⟩ rest).2)
        = ((UnxorStream.read ⟨rotAt (cache.set idx b) ((idx + 1) % cache.length)⟩
             (XorStream.read ⟨cache.set idx b, (idx + 1) % cache.length⟩ rest).2).1,
           b :: (UnxorStream.read ⟨rotAt (cache.set idx b) ((idx + 1) % cache.length)⟩
             (XorStream.read ⟨cache.set idx b, (idx + 1) % cache.length⟩ rest).2).2) := by
      rw [hrot]
      simp only [UnxorStream.read, List.headD_cons, List.tail_cons, hplain, hdeque, hrot]
    rw [hstep, ih_eq]

/-- Chunk-level round trip: running the decoder over the chunk outputs of
the encoder reproduces the input chunks, states staying in rotation
correspondence. -/
theorem roundtrip_run_aux : ∀ (cs : List (List Nat)) (cache : List Nat) (idx : Nat),
    idx < cache.length →
    (XorStream.run ⟨cache, idx⟩ cs).1.last_cache.length = cache.length
    ∧ (XorStream.run ⟨cache, idx⟩ cs).1.last_cache_index < cache.length
    ∧ UnxorStream.run ⟨rotAt cache idx⟩ (XorStream.run ⟨cache, idx⟩ cs).2
      = (⟨rotAt (XorStream.run ⟨cache, idx⟩ cs).1.last_cache
               (XorStream.run ⟨cache, idx⟩ cs).1.last_cache_index⟩, cs)
  | [], cache, idx, h => by
    refine ⟨rfl, h, ?_⟩
    simp [XorStream.run, UnxorStream.run]
  | c :: cs, cache, idx, h => by
    obtain ⟨hlen1, hidx1, heq1⟩ := roundtrip_aux c cache idx h
    obtain ⟨hlen2, hidx2, heq2⟩ :=
      roundtrip_run_aux cs (XorStream.read ⟨cache, idx⟩ c).1.last_cache
        (XorStream.read ⟨cache, idx⟩ c).1.last_cache_index (by rw [hlen1]; exact hidx1)
    have hcast : (⟨(XorStream.read ⟨cache, idx⟩ c).1.last_cache,
        (XorStream.read ⟨cache, idx⟩ c).1.last_cache_index⟩ : XorStream)
        = (XorStream.read ⟨cache, idx⟩ c).1 := rfl
    rw [hcast] at hlen2 hidx2 heq2
    have hrun : XorStream.run ⟨cache, idx⟩ (c :: cs)
        = ((XorStream.run (XorStream.read ⟨cache, idx⟩ c).1 cs).1,
           (XorStream.read ⟨cache, idx⟩ c).2 ::
             (XorStream.run (XorStream.read ⟨cache, idx⟩ c).1 cs).2) := by
      simp only [XorStream.run]
    rw [hrun]
    refine ⟨hlen2.trans hlen1, lt_of_lt_of_eq hidx2 hlen1, ?_⟩
    have hrund : UnxorStream.run ⟨rotAt cache idx⟩
        ((XorStream.read ⟨cache, idx⟩ c).2 ::
          (XorStream.run (XorStream.read ⟨cache, idx⟩ c).1 cs).2)
        = ((UnxorStream.run (UnxorStream.read ⟨rotAt cache idx⟩
              (XorStream.read ⟨cache, idx⟩ c).2).1
              (XorStream.run (XorStream.read ⟨cache, idx⟩ c).1 cs).2).1,
           (UnxorStream.read ⟨rotAt cache idx⟩ (XorStream.read ⟨cache, idx⟩ c).2).2 ::
             (UnxorStream.run (UnxorStream.read ⟨rotAt cache idx⟩
               (XorStream.read ⟨cache, idx⟩ c).2).1
               (XorStream.run (XorStream.read ⟨cache, idx⟩ c).1 cs).2).2) := by
      simp only [UnxorStream.run]
    rw [hrund, heq1]
    simp only [heq2]

/-- C1: Delta-XOR round trip. For every block size of at least 1 and every
sequence of chunks fed to the encoder from stream start (the decoder being
fed the encoder output in the same chunking, both sides starting from the
all-zero ring), the decoder reproduces the original byte sequence exactly,
chunk for chunk — in particular for total length 0 and any total length. -/
theorem delta_xor_roundtrip (B : Nat) (hB : 1 ≤ B) (cs : List (List Nat)) :
    (UnxorStream.run (UnxorStream.new B) (XorStream.run (XorStream.new B) cs).2).2 = cs := by
  have h0 : (0 : Nat) < (List.replicate B 0).length := by
    simpa using hB
  obtain ⟨-, -, heq⟩ := roundtrip_run_aux cs (List.replicate B 0) 0 h0
  have hrot : rotAt (List.replicate B 0) 0 = List.replicate B 0 := by
    simp [rotAt]
  rw [hrot] at heq
  show (UnxorStream.run ⟨List.replicate B 0⟩ (XorStream.run ⟨List.replicate B 0, 0⟩ cs).2).2 = cs
  rw [heq]

/-- Witness for C1 at block size 2 and chunks of unequal sizes. -/
theorem delta_xor_roundtrip_witness :
    (UnxorStream.run (UnxorStream.new 2) (XorStream.run (XorStream.new 2) [[1, 2, 3], [4], []]).2).2
      = [[1, 2, 3], [4], []] :=
  delta_xor_roundtrip 2 (by decide) [[1, 2, 3], [4], []]

/-! ### Corruption analysis for the decoder -/

/-- A diff stream corrupted in one byte: position `p` is replaced by its
xor with `δ` (for `δ ≠ 0` this is exactly an arbitrary change of that
single byte), all other bytes unchanged. -/
def corrupt (p δ : Nat) (l : List Nat) : List Nat := l.set p (l.getD p 0 ^^^ δ)

/-- Periodic xor mask: starting with a countdown of `j`, the byte reached
when the countdown hits 0 is xored with `δ` and the countdown restarts at
`B - 1` — so exactly the positions `j, j + B, j + 2B, ...` are masked. -/
def maskOut (B : Nat) : Nat → Nat → List Nat → List Nat
  | _, _, [] => []
  | j, δ, x :: xs =>
    match j with
    | 0 => (x ^^^ δ) :: maskOut B (B - 1) δ xs
    | k + 1 => x :: maskOut B k δ xs

theorem maskOut_nil (B j δ : Nat) : maskOut B j δ [] = [] := rfl

theorem maskOut_zero (B δ x : Nat) (xs : List Nat) :
    maskOut B 0 δ (x :: xs) = (x ^^^ δ) :: maskOut B (B - 1) δ xs := rfl

theorem maskOut_succ (B j δ x : Nat) (xs : List Nat) :
    maskOut B (j + 1) δ (x :: xs) = x :: maskOut B j δ xs := rfl

theorem unxor_read_cons (hd : Nat) (tl : List Nat) (b : Nat) (rest : List Nat) :
    UnxorStream.read ⟨hd :: tl⟩ (b :: rest)
      = ((UnxorStream.read ⟨tl ++ [hd ^^^ b]⟩ rest).1,
         (hd ^^^ b) :: (UnxorStream.read ⟨tl ++ [hd ^^^ b]⟩ rest).2) := by
  simp only [UnxorStream.read, List.headD_cons, List.tail_cons]

theorem unxor_read_append : ∀ (l1 l2 : List Nat) (s : UnxorStream),
    UnxorStream.read s (l1 ++ l2)
      = ((UnxorStream.read (UnxorStream.read s l1).1 l2).1,
         (UnxorStream.read s l1).2 ++ (UnxorStream.read (UnxorStream.read s l1).1 l2).2)
  | [], l2, s => by simp [UnxorStream.read]
  | b :: r1, l2, s => by
    simp only [List.cons_append, UnxorStream.read, List.append_eq]
    rw [unxor_read_append r1 l2]

theorem xor_read_append : ∀ (l1 l2 : List Nat) (s : XorStream),
    XorStream.read s (l1 ++ l2)
      = ((XorStream.read (XorStream.read s l1).1 l2).1,
         (XorStream.read s l1).2 ++ (XorStream.read (XorStream.read s l1).1 l2).2)
  | [], l2, s => by simp [XorStream.read]
  | b :: r1, l2, s => by
    simp only [List.cons_append, XorStream.read, List.append_eq]
    rw [xor_read_append r1 l2]

theorem xor_read_out_len : ∀ (l : List Nat) (s : XorStream),
    (XorStream.read s l).2.length = l.length
  | [], s => rfl
  | b :: rest, s => by
    simp only [XorStream.read, List.length_cons]
    rw [xor_read_out_len rest]

theorem rotAt_length (l : List Nat) (i : Nat) : (rotAt l i).length = l.length := by
  simp only [rotAt, List.length_append, List.length_drop, List.length_take]
  omega

theorem nat_xor_right_comm (a b c : Nat) : a ^^^ b ^^^ c = a ^^^ c ^^^ b := by
  rw [Nat.xor_assoc, Nat.xor_comm b c, ← Nat.xor_assoc]

/-- Persistence of a one-slot deque discrepancy: if two decoder deques
differ by xor `δ` in exactly one slot (counting `j` pops until that slot
is popped), the corrupted run emits the clean output masked at positions
`j, j + B, j + 2B, ...` and the final deques again differ in exactly
one slot. The discrepancy never dies out. -/
theorem persist_aux : ∀ (stream d : List Nat) (j δ : Nat), j < d.length →
    ((UnxorStream.read ⟨d.set j (d.getD j 0 ^^^ δ)⟩ stream).2
      = maskOut d.length j δ (UnxorStream.read ⟨d⟩ stream).2)
    ∧ (UnxorStream.read ⟨d⟩ stream).1.diff_cache.length = d.length
    ∧ ∃ j', j' < d.length ∧
        (UnxorStream.read ⟨d.set j (d.getD j 0 ^^^ δ)⟩ stream).1.diff_cache
          = (UnxorStream.read ⟨d⟩ stream).1.diff_cache.set j'
              ((UnxorStream.read ⟨d⟩ stream).1.diff_cache.getD j' 0 ^^^ δ)
  | [], d, j, δ, h => by
    refine ⟨rfl, rfl, j, h, ?_⟩
    simp [UnxorStream.read]
  | b :: rest, d, j, δ, h => by
    match d, j, h with
    | hd :: tl, 0, h =>
      have hset : (hd :: tl).set 0 ((hd :: tl).getD 0 0 ^^^ δ) = (hd ^^^ δ) :: tl := rfl
      have hplain : (hd ^^^ δ) ^^^ b = (hd ^^^ b) ^^^ δ := nat_xor_right_comm hd δ b
      have hset2 : tl ++ [(hd ^^^ b) ^^^ δ]
          = (tl ++ [hd ^^^ b]).set tl.length ((tl ++ [hd ^^^ b]).getD tl.length 0 ^^^ δ) := by
        rw [list_set_append_len, list_getD_append_len]
        rfl
      have hlen' : tl.length < (tl ++ [hd ^^^ b]).length := by
        simp
      obtain ⟨ih_out, ih_len, j', hj', ih_st⟩ :=
        persist_aux rest (tl ++ [hd ^^^ b]) tl.length δ hlen'
      have hBlen : (tl ++ [hd ^^^ b]).length = (hd :: tl).length := by simp
      rw [hset, unxor_read_cons, unxor_read_cons, hplain, hset2]
      refine ⟨?_, by rw [ih_len, hBlen], ?_⟩
      · rw [ih_out, hBlen]
        show ((hd ^^^ b) ^^^ δ) :: maskOut (hd :: tl).length tl.length δ _
          = maskOut (hd :: tl).length 0 δ ((hd ^^^ b) :: _)
        have : (hd :: tl).length - 1 = tl.length := by simp
        rw [maskOut_zero, this]
      · exact ⟨j', by rw [← hBlen]; exact hj', ih_st⟩
    | hd :: tl, k + 1, h =>
      have hk : k < tl.length := by simpa using h
      have hset : (hd :: tl).set (k + 1) ((hd :: tl).getD (k + 1) 0 ^^^ δ)
          = hd :: tl.set k (tl.getD k 0 ^^^ δ) := rfl
      have hset2 : tl.set k (tl.getD k 0 ^^^ δ) ++ [hd ^^^ b]
          = (tl ++ [hd ^^^ b]).set k ((tl ++ [hd ^^^ b]).getD k 0 ^^^ δ) := by
        rw [list_set_append_left _ _ _ _ hk, list_getD_append_left _ _ _ hk]
      have hlen' : k < (tl ++ [hd ^^^ b]).length := by
        simp only [List.length_append, List.length_cons, List.length_nil]
        omega
      obtain ⟨ih_out, ih_len, j', hj', ih_st⟩ :=
        persist_aux rest (tl ++ [hd ^^^ b]) k δ hlen'
      have hBlen : (tl ++ [hd ^^^ b]).length = (hd :: tl).length := by simp
      rw [hset, unxor_read_cons, unxor_read_cons, hset2]
      refine ⟨?_, by rw [ih_len, hBlen], ?_⟩
      · rw [ih_out, hBlen]
        show (hd ^^^ b) :: maskOut (hd :: tl).length k δ _
          = maskOut (hd :: tl).length (k + 1) δ ((hd ^^^ b) :: _)
        rw [maskOut_succ]
      · exact ⟨j', by rw [← hBlen]; exact hj', ih_st⟩

theorem corrupt_append (o1 o2 : List Nat) (d : Nat) :
    corrupt o1.length d (o1 ++ o2) = o1 ++ corrupt 0 d o2 := by
  rw [corrupt, corrupt, list_set_append_len, list_getD_append_len]

/-- C8 (amended): a single corrupted diff byte at position `p` does NOT
re-synchronize after `block_size` bytes. Decoding the corrupted stream
yields the plaintext with every byte at positions `p, p + B, p + 2B, ...`
xored with the corrupting delta; all other positions are unaffected, and
the discrepancy recurs forever. -/
theorem corrupt_diff_periodic_corruption (B p δ : Nat) (plain : List Nat)
    (hB : 1 ≤ B) (hp : p < plain.length) :
    (UnxorStream.read (UnxorStream.new B)
        (corrupt p δ (XorStream.read (XorStream.new B) plain).2)).2
      = plain.take p ++ maskOut B 0 δ (plain.drop p) := by
  simp only [XorStream.new, UnxorStream.new]
  have h0 : (0 : Nat) < (List.replicate B (0 : Nat)).length := by simpa using hB
  obtain ⟨hc1len, hi1, hdec1⟩ := roundtrip_aux (plain.take p) (List.replicate B 0) 0 h0
  have hrot0 : rotAt (List.replicate B 0) 0 = List.replicate B 0 := by simp [rotAt]
  rw [hrot0] at hdec1
  obtain ⟨hc2len, hi2, hdec2⟩ :=
    roundtrip_aux (plain.drop p)
      (XorStream.read ⟨List.replicate B 0, 0⟩ (plain.take p)).1.last_cache
      (XorStream.read ⟨List.replicate B 0, 0⟩ (plain.take p)).1.last_cache_index
      (by rw [hc1len]; exact hi1)
  have heta : (⟨(XorStream.read ⟨List.replicate B 0, 0⟩ (plain.take p)).1.last_cache,
      (XorStream.read ⟨List.replicate B 0, 0⟩ (plain.take p)).1.last_cache_index⟩ : XorStream)
      = (XorStream.read ⟨List.replicate B 0, 0⟩ (plain.take p)).1 := rfl
  rw [heta] at hdec2
  -- shorthand facts
  have hlo1 : (XorStream.read ⟨List.replicate B 0, 0⟩ (plain.take p)).2.length = p := by
    rw [xor_read_out_len]
    simp only [List.length_take]
    omega
  have hBc1 : (XorStream.read ⟨List.replicate B 0, 0⟩ (plain.take p)).1.last_cache.length = B := by
    rw [hc1len]
    simp
  have hd1len : (rotAt (XorStream.read ⟨List.replicate B 0, 0⟩ (plain.take p)).1.last_cache
      (XorStream.read ⟨List.replicate B 0, 0⟩ (plain.take p)).1.last_cache_index).length = B := by
    rw [rotAt_length, hBc1]
  -- cons decompositions
  have hdropne : plain.drop p ≠ [] := by
    refine List.length_pos.mp ?_
    simp only [List.length_drop]
    omega
  obtain ⟨q, qrest, hq⟩ := List.exists_cons_of_ne_nil hdropne
  have ho2ne : (XorStream.read (XorStream.read ⟨List.replicate B 0, 0⟩ (plain.take p)).1
      (plain.drop p)).2 ≠ [] := by
    refine List.length_pos.mp ?_
    rw [xor_read_out_len]
    simp only [List.length_drop]
    omega
  obtain ⟨c, crest, hc⟩ := List.exists_cons_of_ne_nil ho2ne
  have hd1ne : rotAt (XorStream.read ⟨List.replicate B 0, 0⟩ (plain.take p)).1.last_cache
      (XorStream.read ⟨List.replicate B 0, 0⟩ (plain.take p)).1.last_cache_index ≠ [] := by
    refine List.length_pos.mp ?_
    rw [hd1len]
    omega
  obtain ⟨e, etl, he⟩ := List.exists_cons_of_ne_nil hd1ne
  have hetlB : etl.length + 1 = B := by
    have := hd1len
    rw [he] at this
    simpa using this
  -- clean suffix run, componentwise
  rw [he, hc, hq] at hdec2
  rw [unxor_read_cons] at hdec2
  have hdec2snd := congrArg Prod.snd hdec2
  simp only [Prod.snd] at hdec2snd
  have hec : e ^^^ c = q := (List.cons.injEq _ _ _ _ ▸ hdec2snd).1
  have hrest : (UnxorStream.read ⟨etl ++ [e ^^^ c]⟩ crest).2 = qrest :=
    (List.cons.injEq _ _ _ _ ▸ hdec2snd).2
  -- corrupted suffix run
  have hqd : e ^^^ (c ^^^ δ) = q ^^^ δ := by
    rw [← Nat.xor_assoc, hec]
  have hsetform : etl ++ [q ^^^ δ]
      = (etl ++ [q]).set etl.length ((etl ++ [q]).getD etl.length 0 ^^^ δ) := by
    rw [list_set_append_len, list_getD_append_len]
    rfl
  obtain ⟨hper, -, -⟩ := persist_aux crest (etl ++ [q]) etl.length δ (by simp)
  have hcorcons : corrupt 0 δ (c :: crest) = (c ^^^ δ) :: crest := rfl
  have hsuffix : (UnxorStream.read
      ⟨rotAt (XorStream.read ⟨List.replicate B 0, 0⟩ (plain.take p)).1.last_cache
        (XorStream.read ⟨List.replicate B 0, 0⟩ (plain.take p)).1.last_cache_index⟩
      (corrupt 0 δ (XorStream.read (XorStream.read ⟨List.replicate B 0, 0⟩ (plain.take p)).1
        (plain.drop p)).2)).2
      = maskOut B 0 δ (plain.drop p) := by
    rw [he, hc, hcorcons, unxor_read_cons]
    show (e ^^^ (c ^^^ δ)) :: (UnxorStream.read ⟨etl ++ [e ^^^ (c ^^^ δ)]⟩ crest).2 = _
    rw [hqd, hsetform, hper]
    have hmB : (etl ++ [q]).length = B := by
      simpa using hetlB
    rw [hmB, hq, maskOut_zero]
    have hB1 : B - 1 = etl.length := by omega
    rw [hB1]
    have hql : etl ++ [q] = etl ++ [e ^^^ c] := by rw [hec]
    rw [hql, hrest]
  -- assemble
  have hsplit : plain.take p ++ plain.drop p = plain := List.take_append_drop p plain
  have henc := xor_read_append (plain.take p) (plain.drop p) ⟨List.replicate B 0, 0⟩
  rw [hsplit] at henc
  have henc2 : (XorStream.read ⟨List.replicate B 0, 0⟩ plain).2
      = (XorStream.read ⟨List.replicate B 0, 0⟩ (plain.take p)).2
        ++ (XorStream.read (XorStream.read ⟨List.replicate B 0, 0⟩ (plain.take p)).1
            (plain.drop p)).2 := congrArg Prod.snd henc
  rw [henc2]
  have hcor := corrupt_append (XorStream.read ⟨List.replicate B 0, 0⟩ (plain.take p)).2
    (XorStream.read (XorStream.read ⟨List.replicate B 0, 0⟩ (plain.take p)).1 (plain.drop p)).2 δ
  rw [hlo1] at hcor
  rw [hcor]
  have hdecsplit : (UnxorStream.read ⟨List.replicate B 0⟩
      ((XorStream.read ⟨List.replicate B 0, 0⟩ (plain.take p)).2
        ++ corrupt 0 δ (XorStream.read (XorStream.read ⟨List.replicate B 0, 0⟩ (plain.take p)).1
            (plain.drop p)).2)).2
      = (UnxorStream.read ⟨List.replicate B 0⟩
          (XorStream.read ⟨List.replicate B 0, 0⟩ (plain.take p)).2).2
        ++ (UnxorStream.read
            (UnxorStream.read ⟨List.replicate B 0⟩
              (XorStream.read ⟨List.replicate B 0, 0⟩ (plain.take p)).2).1
            (corrupt 0 δ (XorStream.read (XorStream.read ⟨List.replicate B 0, 0⟩
              (plain.take p)).1 (plain.drop p)).2)).2 :=
    congrArg Prod.snd (unxor_read_append _ _ _)
  rw [hdecsplit]
  have hd1fst : (UnxorStream.read ⟨List.replicate B 0⟩
      (XorStream.read ⟨List.replicate B 0, 0⟩ (plain.take p)).2).1
      = ⟨rotAt (XorStream.read ⟨List.replicate B 0, 0⟩ (plain.take p)).1.last_cache
          (XorStream.read ⟨List.replicate B 0, 0⟩ (plain.take p)).1.last_cache_index⟩ :=
    congrArg Prod.fst hdec1
  have hd1snd : (UnxorStream.read ⟨List.replicate B 0⟩
      (XorStream.read ⟨List.replicate B 0, 0⟩ (plain.take p)).2).2 = plain.take p :=
    congrArg Prod.snd hdec1
  rw [hd1fst, hd1snd, hsuffix]

/-- Witness for C8 (amended) at block size 2, corruption of diff byte 0 by
delta 1, plaintext of three full blocks. -/
theorem corrupt_diff_periodic_corruption_witness :
    (UnxorStream.read (UnxorStream.new 2)
        (corrupt 0 1 (XorStream.read (XorStream.new 2) [1, 2, 3, 4, 5, 6]).2)).2
      = [1, 2, 3, 4, 5, 6].take 0 ++ maskOut 2 0 1 ([1, 2, 3, 4, 5, 6].drop 0) :=
  corrupt_diff_periodic_corruption 2 0 1 [1, 2, 3, 4, 5, 6] (by decide) (by decide)

/-- Counterexample to C8 as stated: with block size 2 and the diff stream
of plaintext [1,2,3,4,5,6] corrupted in byte 0, the decoder output is
[0,2,2,4,4,6]; at position 2 = p + block_size — after block_size further
bytes, where the claim promises renewed agreement with the plaintext —
the output byte 2 still differs from the plaintext byte 3, so the ring
state has not re-synchronized. -/
theorem corrupt_diff_no_resync_cex :
    (UnxorStream.read (UnxorStream.new 2)
        (corrupt 0 1 (XorStream.read (XorStream.new 2) [1, 2, 3, 4, 5, 6]).2)).2
      = [0, 2, 2, 4, 4, 6]
    ∧ [0, 2, 2, 4, 4, 6].getD 2 0 ≠ [1, 2, 3, 4, 5, 6].getD 2 0 := by
  constructor
  · rfl
  · decide

theorem unxor_read_out_len : ∀ (l : List Nat) (s : UnxorStream),
    (UnxorStream.read s l).2.length = l.length
  | [], s => rfl
  | b :: rest, s => by
    simp only [UnxorStream.read, List.length_cons]
    rw [unxor_read_out_len rest]

/-- `UnxorStream::read` including the fallible wrapped source
(src/xor.rs lines 60-67): `inner_result` is what `self.inner.read(buf)?`
produced — either the source's own error (propagated by `?`) or the bytes
it placed in the buffer, whose count may be anything up to `buf_len`
(the capacity of `buf`). The source code applies no exact-size check:
whatever the inner source returned is decoded. -/
def UnxorStream.read_from (s : UnxorStream) (buf_len : Nat)
    (inner_result : Except String (List Nat)) : Except String (UnxorStream × List Nat) :=
  match buf_len, inner_result with
  | _, Except.error e => Except.error e
  | _, Except.ok chunk => Except.ok (UnxorStream.read s chunk)

/-- Counterexample to C7 as stated: a short read from the wrapped source
(2 bytes delivered into a 4-byte buffer) is NOT an error — the decoder
processes the two bytes as a partial block and returns them. -/
theorem unxor_short_read_not_error_cex :
    UnxorStream.read_from (UnxorStream.new 3) 4 (Except.ok [5, 7])
      = Except.ok (⟨[0, 5, 7]⟩, [5, 7])
    ∧ [5, 7].length < 4 := by
  constructor
  · rfl
  · decide

/-- C7 (amended): `UnxorStream::read` does not require an exact-size read.
It decodes exactly the bytes the wrapped source returned — short reads
included, which are processed as partial blocks, byte for byte — and only
the wrapped source's own errors propagate. -/
theorem unxor_read_processes_returned_bytes (s : UnxorStream) (buf_len : Nat)
    (chunk : List Nat) :
    UnxorStream.read_from s buf_len (Except.ok chunk) = Except.ok (UnxorStream.read s chunk)
    ∧ (UnxorStream.read s chunk).2.length = chunk.length
    ∧ ∀ e : String, UnxorStream.read_from s buf_len (Except.error e) = Except.error e :=
  ⟨rfl, unxor_read_out_len chunk s, fun _ => rfl⟩

/-! ## Frame-rate throttle (src/main.rs, FrameCapper) -/

/-- One second, in nanoseconds: `Duration::from_secs(1)`. -/
def ONE_SEC : Nat := 1000000000

/-- Upper bound of the representable `SystemTime` range, in nanoseconds
(on the target platform the time is kept as a signed 64-bit count of
seconds plus nanoseconds, so `SystemTime::checked_add` fails beyond it).
The claims never depend on the exact value, only on the existence of a
bound past which `checked_add` returns `None`. -/
def TIME_MAX : Nat := 9223372036854775807 * 1000000000

/-- `SystemTime::checked_add`: `None` exactly when the sum leaves the
representable range. -/
def checked_add (t d : Nat) : Option Nat :=
  if t + d ≤ TIME_MAX then some (t + d) else none

/-- Throttle state, mirroring `struct FrameCapper` (src/main.rs lines
152-156): the pacing anchor `last_frame` (a `SystemTime`, here in
nanoseconds), the target inter-frame interval and the missed-frame
counter. -/
structure FrameCapper where
  last_frame : Nat
  frame_duration : Nat
  missed_frames : Nat
deriving DecidableEq, Repr

/-- Result of one `sync_framerate` call: the new throttle state, how long
the call slept (`none` = no sleep), and the `Result` value returned.
On an `Err` the state still carries the `missed_frames` update, because
the Rust method mutates `self` before the failing `checked_add`. -/
structure SyncResult where
  state : FrameCapper
  slept : Option Nat
  result : Except String Unit
deriving Repr

/-- `FrameCapper::sync_framerate` (src/main.rs lines 167-190). `elapsed`
is what `self.last_frame.elapsed()` returned, `now` what
`SystemTime::now()` returns in the reset branch; both are inputs of the
environment. The missed-frame decrement `(missed as i32 - 1).max(0)` is
Nat subtraction, which floors at 0 the same way. -/
def FrameCapper.sync_framerate (s : FrameCapper) (elapsed now : Nat) : SyncResult :=
  let md :=
    if s.frame_duration > elapsed then
      (s.missed_frames - 1, some (s.frame_duration - elapsed))
    else
      (s.missed_frames + 1, (none : Option Nat))
  if md.1 * s.frame_duration > ONE_SEC then
    ⟨{ s with last_frame := now, missed_frames := md.1 }, md.2, Except.ok ()⟩
  else
    match checked_add s.last_frame s.frame_duration with
    | some t => ⟨{ s with last_frame := t, missed_frames := md.1 }, md.2, Except.ok ()⟩
    | none => ⟨{ s with missed_frames := md.1 }, md.2,
               Except.error "Error calculating next frame time"⟩

/-- C5: behaviour of one sync call. If the elapsed time is below the
frame duration the call sleeps for the difference and decrements
`missed_frames` by 1 floored at 0; otherwise it does not sleep and
increments `missed_frames`. Then, with the updated counter: if
`missed_frames * frame_duration` exceeds one second the anchor is reset
to the current time; otherwise it advances by exactly one
`frame_duration` (when representable; past the representable range the
anchor is left unchanged and an error is returned). -/
theorem sync_framerate_spec (s : FrameCapper) (elapsed now : Nat) :
    ((FrameCapper.sync_framerate s elapsed now).slept
       = if elapsed < s.frame_duration then some (s.frame_duration - elapsed) else none)
    ∧ ((FrameCapper.sync_framerate s elapsed now).state.missed_frames
       = if elapsed < s.frame_duration then s.missed_frames - 1 else s.missed_frames + 1)
    ∧ ((FrameCapper.sync_framerate s elapsed now).state.last_frame
       = if (FrameCapper.sync_framerate s elapsed now).state.missed_frames * s.frame_duration
             > ONE_SEC
         then now
         else if s.last_frame + s.frame_duration ≤ TIME_MAX
           then s.last_frame + s.frame_duration
           else s.last_frame)
    ∧ ((FrameCapper.sync_framerate s elapsed now).result
       = if (FrameCapper.sync_framerate s elapsed now).state.missed_frames * s.frame_duration
             > ONE_SEC
            ∨ s.last_frame + s.frame_duration ≤ TIME_MAX
         then Except.ok () else Except.error "Error calculating next frame time") := by
  by_cases h1 : elapsed < s.frame_duration
  · by_cases h2 : (s.missed_frames - 1) * s.frame_duration > ONE_SEC
    · simp [FrameCapper.sync_framerate, h1, h2]
    · by_cases h3 : s.last_frame + s.frame_duration ≤ TIME_MAX
      · simp [FrameCapper.sync_framerate, checked_add, h1, h2, h3]
      · simp [FrameCapper.sync_framerate, checked_add, h1, h2, h3]
  · by_cases h2 : (s.missed_frames + 1) * s.frame_duration > ONE_SEC
    · simp [FrameCapper.sync_framerate, h1, h2]
    · by_cases h3 : s.last_frame + s.frame_duration ≤ TIME_MAX
      · simp [FrameCapper.sync_framerate, checked_add, h1, h2, h3]
      · simp [FrameCapper.sync_framerate, checked_add, h1, h2, h3]

/-- The sustained-late-frame scenario of C6: frame duration 100 ms
(100000000 ns), each frame taking 110 ms of real time. `lateTrace k`
returns the throttle state after `k` sync calls, the current real time
and the list of sleep amounts of the calls made so far. -/
def lateTrace : Nat → FrameCapper × Nat × List (Option Nat)
  | 0 => (⟨0, 100000000, 0⟩, 0, [])
  | k + 1 =>
    let prev := lateTrace k
    let t2 := prev.2.1 + 110000000
    let r := FrameCapper.sync_framerate prev.1 (t2 - prev.1.last_frame) t2
    (r.state, t2, prev.2.2 ++ [r.slept])

set_option maxRecDepth 100000 in
/-- C6: evaluation of the code at the claimed scenario. With
`frame_duration` = 100 ms and 15 consecutive frames of 110 ms, none of
the 15 sync calls sleeps, yet `missed_frames` reaches 15 — it EXCEEDS 11,
the smallest n with n * frame_duration > 1 s, because the
forgiveness-window branch resets only the anchor and never the counter.
The claimed bound is violated by the code. -/
theorem missed_frames_exceeds_window :
    (lateTrace 15).1.missed_frames = 15
    ∧ (lateTrace 15).2.2 = List.replicate 15 none
    ∧ 11 * 100000000 > ONE_SEC
    ∧ ¬ (10 * 100000000 > ONE_SEC)
    ∧ 15 > 11 := by
  refine ⟨rfl, rfl, by decide, by decide, by decide⟩

/-! ## Cyclic frame source (src/main.rs, ReStreamer) -/

/-- Frame source state, mirroring `struct ReStreamer` (src/main.rs lines
193-199) minus the file handle and its seek offset (pure I/O). `cursor`
counts the bytes consumed of the current frame, `size` is the frame size
in bytes. `syncCalls` is a ghost counter of `sync_framerate` invocations,
used only to state how many throttle invocations a call performs. -/
structure ReStreamer where
  cursor : Nat
  size : Nat
  framecapper : Option FrameCapper
  syncCalls : Nat
deriving Repr

/-- `ReStreamer::next_frame` (src/main.rs lines 226-233): reposition the
handle to the frame start (the seek, the only fallible step, is modelled
as succeeding — its errors belong to the file handle), reset the cursor,
and invoke the throttle when configured. The throttle's `Result` is
discarded by `.ok()`: the updated throttle state is kept (the Rust method
mutates in place before failing) but an `Err` from `sync_framerate`
never reaches the caller of `next_frame`. -/
def ReStreamer.next_frame (s : ReStreamer) (elapsed now : Nat) : Except String ReStreamer :=
  Except.ok { s with
    cursor := 0,
    framecapper := s.framecapper.map fun c => (FrameCapper.sync_framerate c elapsed now).state,
    syncCalls := s.syncCalls + (if s.framecapper.isSome then 1 else 0) }

/-- The request length that `ReStreamer::read` passes to the underlying
handle (src/main.rs lines 239-244): the full request while it stays
inside the current frame, otherwise the remaining bytes of the frame. -/
def clip (cursor size requested : Nat) : Nat :=
  if cursor + requested < size then requested else size - cursor

/-- `ReStreamer::read` (src/main.rs lines 236-250). `innerRead n` models
`file.read` on a buffer slice of length `n`, returning the count the
handle delivered; a `Read` implementation never returns more than the
slice length, which the `min` enforces. After a read that reaches the
frame boundary exactly, `next_frame` runs (throttle, cursor reset). -/
def ReStreamer.read (s : ReStreamer) (requested : Nat) (innerRead : Nat → Nat)
    (elapsed now : Nat) : Except String (ReStreamer × Nat) :=
  let lim := clip s.cursor s.size requested
  let bytes_read := min (innerRead lim) lim
  let s1 : ReStreamer := { s with cursor := s.cursor + bytes_read }
  if s1.cursor = s1.size then
    match s1.next_frame elapsed now with
    | Except.ok s2 => Except.ok (s2, bytes_read)
    | Except.error e => Except.error e
  else
    Except.ok (s1, bytes_read)

/-- C2: `ReStreamer::read` never reads across a frame boundary: the
length passed to the underlying handle never exceeds the bytes remaining
in the current frame, and a request exceeding the remainder is clipped to
exactly the remainder. In particular, with frame size 100, cursor 95 and
a 20-byte request served in full by the handle, the call returns exactly
5 bytes, resets the cursor and performs exactly one throttle invocation
before the next read. -/
theorem restreamer_read_clip (cursor size requested : Nat) (h : cursor < size) :
    clip cursor size requested ≤ size - cursor
    ∧ (size - cursor < requested → clip cursor size requested = size - cursor)
    ∧ ReStreamer.read ⟨95, 100, some ⟨0, 100000000, 0⟩, 0⟩ 20 (fun n => n) 0 0
        = Except.ok (⟨0, 100, some ⟨100000000, 100000000, 0⟩, 1⟩, 5) := by
  refine ⟨?_, ?_, ?_⟩
  · rw [clip]
    split_ifs with h1
    · omega
    · omega
  · intro hgt
    rw [clip, if_neg (by omega)]
  · rfl

/-- Witness for C2 at cursor 95, frame size 100, request 20. -/
theorem restreamer_read_clip_witness :
    clip 95 100 20 ≤ 100 - 95
    ∧ (100 - 95 < 20 → clip 95 100 20 = 100 - 95)
    ∧ ReStreamer.read ⟨95, 100, some ⟨0, 100000000, 0⟩, 0⟩ 20 (fun n => n) 0 0
        = Except.ok (⟨0, 100, some ⟨100000000, 100000000, 0⟩, 1⟩, 5) :=
  restreamer_read_clip 95 100 20 (by decide)

/-- Counterexample to C9 as stated: in a state whose anchor advance
overflows, `sync_framerate` does return an `Err`, but
`ReStreamer::next_frame` — the only caller in the capture path — returns
`Ok` and the pipeline continues: the failure is discarded by `.ok()`,
not surfaced, and capture does not stop. -/
theorem sync_error_discarded_cex :
    (FrameCapper.sync_framerate ⟨TIME_MAX, 1, 0⟩ 5 7).result
      = Except.error "Error calculating next frame time"
    ∧ ReStreamer.next_frame ⟨3, 10, some ⟨TIME_MAX, 1, 0⟩, 0⟩ 5 7
      = Except.ok ⟨0, 10, some ⟨TIME_MAX, 1, 1⟩, 1⟩ := by
  constructor
  · rfl
  · rfl

/-- C9 (amended): a failed anchor advance (checked addition returning no
value) makes `sync_framerate` return an `Err`, but `ReStreamer::next_frame`
discards that error with `.ok()` and itself succeeds with the cursor
reset — the pipeline keeps capturing; only seek errors of the handle can
stop it at this point. -/
theorem sync_error_discarded (fc : FrameCapper) (elapsed now : Nat) (s : ReStreamer)
    (h2 : (if elapsed < fc.frame_duration then fc.missed_frames - 1
           else fc.missed_frames + 1) * fc.frame_duration ≤ ONE_SEC)
    (h3 : ¬ (fc.last_frame + fc.frame_duration ≤ TIME_MAX)) :
    (FrameCapper.sync_framerate fc elapsed now).result
      = Except.error "Error calculating next frame time"
    ∧ ∃ s2, ReStreamer.next_frame s elapsed now = Except.ok s2 ∧ s2.cursor = 0 := by
  refine ⟨?_, ⟨_, rfl, rfl⟩⟩
  by_cases h1 : elapsed < fc.frame_duration
  · rw [if_pos h1] at h2
    simp [FrameCapper.sync_framerate, checked_add, h1, h3, Nat.not_lt.mpr h2]
  · rw [if_neg h1] at h2
    simp [FrameCapper.sync_framerate, checked_add, h1, h3, Nat.not_lt.mpr h2]

/-- Witness for C9 (amended) at a state whose anchor sits at the end of
the representable time range. -/
theorem sync_error_discarded_witness :
    (FrameCapper.sync_framerate ⟨TIME_MAX, 1, 0⟩ 5 7).result
      = Except.error "Error calculating next frame time"
    ∧ ∃ s2, ReStreamer.next_frame ⟨3, 10, some ⟨TIME_MAX, 1, 0⟩, 0⟩ 5 7 = Except.ok s2
        ∧ s2.cursor = 0 :=
  sync_error_discarded ⟨TIME_MAX, 1, 0⟩ 5 7 ⟨3, 10, some ⟨TIME_MAX, 1, 0⟩, 0⟩
    (by decide) (by decide)

/-! ## Monochrome transcoder (src/main.rs, MonowTranscoder) -/

/-- `pix as u8` for a pixel flag. -/
def pixVal (b : Bool) : Nat := cond b 1 0

/-- The packing loop of `refill_bw_data_2bytes_per_pixel` (src/main.rs
lines 296-331), reimplemented over the byte list read from the source:
every 16 source bytes become one output byte; pixel k (2 bytes) is on
exactly when both its bytes are 0, and the eight flags are packed with
pixel 1 at bit 7 down to pixel 8 at bit 0. -/
def MonowTranscoder.refill_bw_data_2bytes_per_pixel : List Nat → List Nat
  | b0 :: b1 :: b2 :: b3 :: b4 :: b5 :: b6 :: b7 ::
    b8 :: b9 :: b10 :: b11 :: b12 :: b13 :: b14 :: b15 :: rest =>
    (pixVal (b0 == 0 && b1 == 0) <<< 7
      ||| pixVal (b2 == 0 && b3 == 0) <<< 6
      ||| pixVal (b4 == 0 && b5 == 0) <<< 5
      ||| pixVal (b6 == 0 && b7 == 0) <<< 4
      ||| pixVal (b8 == 0 && b9 == 0) <<< 3
      ||| pixVal (b10 == 0 && b11 == 0) <<< 2
      ||| pixVal (b12 == 0 && b13 == 0) <<< 1
      ||| pixVal (b14 == 0 && b15 == 0) <<< 0)
    :: MonowTranscoder.refill_bw_data_2bytes_per_pixel rest
  | _ => []

/-- The packing loop of `refill_bw_data_1byte_per_pixel` (src/main.rs
lines 352-382): every 8 source bytes become one output byte; a pixel is
on exactly when its single byte is 0, same bit order as the 2-byte rule. -/
def MonowTranscoder.refill_bw_data_1byte_per_pixel : List Nat → List Nat
  | b0 :: b1 :: b2 :: b3 :: b4 :: b5 :: b6 :: b7 :: rest =>
    (pixVal (b0 == 0) <<< 7
      ||| pixVal (b1 == 0) <<< 6
      ||| pixVal (b2 == 0) <<< 5
      ||| pixVal (b3 == 0) <<< 4
      ||| pixVal (b4 == 0) <<< 3
      ||| pixVal (b5 == 0) <<< 2
      ||| pixVal (b6 == 0) <<< 1
      ||| pixVal (b7 == 0) <<< 0)
    :: MonowTranscoder.refill_bw_data_1byte_per_pixel rest
  | _ => []

/-- Shift-and-or packing of eight flags equals the weighted sum with the
first flag at weight 128 (most significant) down to the eighth at 1. -/
theorem packBits_eq (p1 p2 p3 p4 p5 p6 p7 p8 : Bool) :
    pixVal p1 <<< 7 ||| pixVal p2 <<< 6 ||| pixVal p3 <<< 5 ||| pixVal p4 <<< 4
      ||| pixVal p5 <<< 3 ||| pixVal p6 <<< 2 ||| pixVal p7 <<< 1 ||| pixVal p8 <<< 0
    = 128 * pixVal p1 + 64 * pixVal p2 + 32 * pixVal p3 + 16 * pixVal p4
      + 8 * pixVal p5 + 4 * pixVal p6 + 2 * pixVal p7 + 1 * pixVal p8 := by
  cases p1 <;> cases p2 <;> cases p3 <;> cases p4 <;>
    cases p5 <;> cases p6 <;> cases p7 <;> cases p8 <;> rfl

/-- Spec-side pixel value for the 2-byte rule: 1 exactly when both bytes
are zero. -/
def onVal2 (a b : Nat) : Nat := if a = 0 ∧ b = 0 then 1 else 0

/-- Spec-side pixel value for the 1-byte rule: 1 exactly when the byte is
zero. -/
def onVal1 (a : Nat) : Nat := if a = 0 then 1 else 0

theorem pixVal_and_eq (a b : Nat) : pixVal (a == 0 && b == 0) = onVal2 a b := by
  simp only [pixVal, onVal2, Bool.cond_eq_ite, Bool.and_eq_true, beq_iff_eq]

theorem pixVal_eq (a : Nat) : pixVal (a == 0) = onVal1 a := by
  simp only [pixVal, onVal1, Bool.cond_eq_ite, beq_iff_eq]

/-- C3: for a 16-byte group of a 2-bytes-per-pixel frame, the repacking
marks a pixel as 1 exactly when both of its bytes are zero, packing the
first pixel at the most-significant bit down to the eighth pixel at the
least-significant bit; the example group packs to 0xDF. -/
theorem monow_pack_2bytes_per_pixel_spec :
    (∀ b0 b1 b2 b3 b4 b5 b6 b7 b8 b9 b10 b11 b12 b13 b14 b15 : Nat,
      MonowTranscoder.refill_bw_data_2bytes_per_pixel
          [b0, b1, b2, b3, b4, b5, b6, b7, b8, b9, b10, b11, b12, b13, b14, b15]
        = [128 * onVal2 b0 b1 + 64 * onVal2 b2 b3 + 32 * onVal2 b4 b5 + 16 * onVal2 b6 b7
            + 8 * onVal2 b8 b9 + 4 * onVal2 b10 b11 + 2 * onVal2 b12 b13 + 1 * onVal2 b14 b15])
    ∧ MonowTranscoder.refill_bw_data_2bytes_per_pixel
        [0, 0, 0, 0, 1, 0, 0, 0, 0, 0, 0, 0, 0, 0, 0, 0] = [0xDF] := by
  constructor
  · intro b0 b1 b2 b3 b4 b5 b6 b7 b8 b9 b10 b11 b12 b13 b14 b15
    show (pixVal (b0 == 0 && b1 == 0) <<< 7
      ||| pixVal (b2 == 0 && b3 == 0) <<< 6
      ||| pixVal (b4 == 0 && b5 == 0) <<< 5
      ||| pixVal (b6 == 0 && b7 == 0) <<< 4
      ||| pixVal (b8 == 0 && b9 == 0) <<< 3
      ||| pixVal (b10 == 0 && b11 == 0) <<< 2
      ||| pixVal (b12 == 0 && b13 == 0) <<< 1
      ||| pixVal (b14 == 0 && b15 == 0) <<< 0) :: [] = _
    rw [packBits_eq]
    simp only [pixVal_and_eq]
  · rfl

/-- C4: for an 8-byte group of a 1-byte-per-pixel frame, the repacking
marks a pixel as 1 exactly when its byte is zero, with the same
most-significant-bit-first ordering; the example group packs to 0xAA. -/
theorem monow_pack_1byte_per_pixel_spec :
    (∀ b0 b1 b2 b3 b4 b5 b6 b7 : Nat,
      MonowTranscoder.refill_bw_data_1byte_per_pixel [b0, b1, b2, b3, b4, b5, b6, b7]
        = [128 * onVal1 b0 + 64 * onVal1 b1 + 32 * onVal1 b2 + 16 * onVal1 b3
            + 8 * onVal1 b4 + 4 * onVal1 b5 + 2 * onVal1 b6 + 1 * onVal1 b7])
    ∧ MonowTranscoder.refill_bw_data_1byte_per_pixel [0, 1, 0, 1, 0, 1, 0, 1] = [0xAA] := by
  constructor
  · intro b0 b1 b2 b3 b4 b5 b6 b7
    show (pixVal (b0 == 0) <<< 7
      ||| pixVal (b1 == 0) <<< 6
      ||| pixVal (b2 == 0) <<< 5
      ||| pixVal (b3 == 0) <<< 4
      ||| pixVal (b4 == 0) <<< 3
      ||| pixVal (b5 == 0) <<< 2
      ||| pixVal (b6 == 0) <<< 1
      ||| pixVal (b7 == 0) <<< 0) :: [] = _
    rw [packBits_eq]
    simp only [pixVal_eq]
  · rfl

/-- Transcoder state, mirroring `struct MonowTranscoder` (src/main.rs
lines 253-258). `monow_data` is the `Option<Cursor<Vec<u8>>>`: the packed
buffer together with its read position. The wrapped frame source is
modelled by `inner`, the list of native frames it will serve to the
`read_exact` calls of upcoming refills (the real source is cyclic and
unbounded; a nonempty list means the source still has data). -/
structure MonowTranscoder where
  monow_data : Option (List Nat × Nat)
  inner : List (List Nat)
  bytes_per_pixel : Nat
  native_size : Nat
deriving Repr

/-- The shared body of the refill methods (src/main.rs lines 282-290 and
338-346): `read_exact` of one full native frame from the source (an
error when the source cannot deliver `native_size` bytes), `take` of the
current buffer (an error when absent), then the packing loop `pack`
replaces the buffer content and the cursor restarts at position 0. -/
def MonowTranscoder.refill_with (s : MonowTranscoder)
    (pack : List Nat → List Nat) : Except String MonowTranscoder :=
  match s.inner with
  | [] => Except.error "failed to fill whole buffer"
  | frame :: restFrames =>
    if frame.length = s.native_size then
      match s.monow_data with
      | none => Except.error "monow_data is empty!"
      | some _ => Except.ok { s with monow_data := some (pack frame, 0), inner := restFrames }
    else Except.error "failed to fill whole buffer"

/-- `MonowTranscoder::refill_bw_data` (src/main.rs lines 273-279):
dispatch on `bytes_per_pixel`, any other value being an unsupported
configuration. -/
def MonowTranscoder.refill_bw_data (s : MonowTranscoder) : Except String MonowTranscoder :=
  match s.bytes_per_pixel with
  | 1 => s.refill_with MonowTranscoder.refill_bw_data_1byte_per_pixel
  | 2 => s.refill_with MonowTranscoder.refill_bw_data_2bytes_per_pixel
  | _ => Except.error "Unsupported bytes_per_pixel value!"

/-- `MonowTranscoder::read` (src/main.rs lines 390-404): serve from the
packed buffer at the cursor (`Cursor::read` copies
`min(remaining, buf_len)` bytes and advances the position); when fewer
bytes than requested were served, refill before returning — a refill
failure is a generic I/O error. The byte count returned to the caller is
the count served from the buffer BEFORE the refill. -/
def MonowTranscoder.read (s : MonowTranscoder) (buf_len : Nat) :
    Except String (MonowTranscoder × List Nat) :=
  match s.monow_data with
  | none => Except.error "other"
  | some (buf, pos) =>
    let served := (buf.drop pos).take buf_len
    let s1 : MonowTranscoder := { s with monow_data := some (buf, pos + served.length) }
    if served.length < buf_len then
      match s1.refill_bw_data with
      | Except.ok s2 => Except.ok (s2, served)
      | Except.error _ => Except.error "other"
    else
      Except.ok (s1, served)

/-- C10: a call sequence at the transcoder read interface that yields
`Ok` with 0 bytes while the frame source still has data. With a packed
frame of one byte (8 pixels, 1 byte per pixel): the constructor refill
loads the first frame; a 1-byte read serves exactly the remaining byte,
so no refill is triggered; the following 1-byte read serves 0 bytes —
an end-of-stream signal for the downstream consumer — while the source
still has frames, and performs the refill only then. -/
theorem monow_read_returns_zero_with_data_left :
    MonowTranscoder.refill_bw_data
        ⟨some ([0], 0), [[0, 0, 0, 0, 0, 0, 0, 0], [1, 1, 1, 1, 1, 1, 1, 1],
          [2, 2, 2, 2, 2, 2, 2, 2]], 1, 8⟩
      = Except.ok ⟨some ([255], 0), [[1, 1, 1, 1, 1, 1, 1, 1], [2, 2, 2, 2, 2, 2, 2, 2]], 1, 8⟩
    ∧ MonowTranscoder.read
        ⟨some ([255], 0), [[1, 1, 1, 1, 1, 1, 1, 1], [2, 2, 2, 2, 2, 2, 2, 2]], 1, 8⟩ 1
      = Except.ok (⟨some ([255], 1), [[1, 1, 1, 1, 1, 1, 1, 1], [2, 2, 2, 2, 2, 2, 2, 2]], 1, 8⟩,
          [255])
    ∧ MonowTranscoder.read
        ⟨some ([255], 1), [[1, 1, 1, 1, 1, 1, 1, 1], [2, 2, 2, 2, 2, 2, 2, 2]], 1, 8⟩ 1
      = Except.ok (⟨some ([0], 0), [[2, 2, 2, 2, 2, 2, 2, 2]], 1, 8⟩, [])
    ∧ ([[1, 1, 1, 1, 1, 1, 1, 1], [2, 2, 2, 2, 2, 2, 2, 2]] : List (List Nat)) ≠ [] := by
  refine ⟨rfl, rfl, rfl, by decide⟩
